import Mathlib

/-!
Verification of the thermodynamics library `BB_wx_calcs/thermodynamics.py`.

The Python module is a pure scalar library.  Its floating-point arithmetic is
modelled over the exact reals `ℝ`: the Python float power `x ** y` becomes
`Real.rpow`, `np.exp` and `np.log` become `Real.exp` and `Real.log`, and `/`
is true division.  A computation whose IEEE evaluation would be non-finite
(division by zero, logarithm of a non-positive quantity, a real power of a
non-positive base) is modelled by `Option ℝ` at the single place the code
observes non-finiteness: the objective function fed to the `WBT` Newton loop.
`THTEo` returns `none` there, and the loop's `denom > 0` comparison is false
whenever a `none` is involved, exactly as IEEE comparisons on NaN are false.
-/

noncomputable section

/-- Source `c_to_K`: Celsius to Kelvin, `c + 273.15`. -/
def c_to_K (c : ℝ) : ℝ := c + 273.15

/-- Source `TempPress_to_PotTemp`: potential temperature via Poisson's
equation, `theta = c_to_K(temp) * (p0/press) ** (R/cp)` with the source
constants `R = 287.`, `cp = 1004.`, `p0 = 1000.` (temperature in Celsius,
pressure in hPa). -/
def TempPress_to_PotTemp (temp press : ℝ) : ℝ :=
  let R : ℝ := 287
  let cp : ℝ := 1004
  let p0 : ℝ := 1000
  c_to_K temp * (p0 / press) ^ (R / cp)

/-- Source `DwptPress_to_MixRatio`: mixing ratio (g/kg) from dew point
(Celsius) and pressure (hPa), via `e = 6.11 * 10 ** (7.5*Tdew/(237.3+Tdew))`
and `w = 621.97 * (e/(press-e))`. -/
def DwptPress_to_MixRatio (Tdew press : ℝ) : ℝ :=
  let e := 6.11 * (10 : ℝ) ^ (7.5 * Tdew / (237.3 + Tdew))
  621.97 * (e / (press - e))

/-- Source `svpwat`: saturation vapor pressure over water (hPa) from
temperature in K.  The source reassigns `t -= 273.16`; that shifted value is
`s` here.  The source's exponent literal `8.` is the integer 8. -/
def svpwat (t : ℝ) : ℝ :=
  let a0 : ℝ := 0.999996876
  let a1 : ℝ := -0.9082695004e-2
  let a2 : ℝ := 0.7873616869e-4
  let a3 : ℝ := -0.6111795727e-6
  let a4 : ℝ := 0.4388418740e-8
  let a5 : ℝ := -0.2988388486e-10
  let a6 : ℝ := 0.2187442495e-12
  let a7 : ℝ := -0.1789232111e-14
  let a8 : ℝ := 0.1111201803e-16
  let a9 : ℝ := -0.3099457145e-19
  let b : ℝ := 6.1078
  let s := t - 273.16
  b / (a0 + s * (a1 + s * (a2 + s * (a3 + s * (a4 + s * (a5 + s * (a6 + s *
    (a7 + s * (a8 + s * a9))))))))) ^ (8 : ℕ)

/-- Source `satmixwat`: saturation mixing ratio over water (g/kg),
`(622. * es) / p` with `es = svpwat(t)`. -/
def satmixwat (p t : ℝ) : ℝ := 622 * svpwat t / p

/-- Source `rh_to_mr_wat`: mixing ratio over water (g/kg) from relative
humidity (%), pressure (hPa) and temperature (K). -/
def rh_to_mr_wat (rh p t : ℝ) : ℝ := rh * 0.01 * satmixwat p t

/-- Source `THTE`: equivalent potential temperature from pressure (hPa),
temperature (Celsius) and dew point (Celsius).  The Python variable `e` is
reassigned midway through the function; its second value is called `e2`
here.  `287/1004` is true division, as in the spec. -/
def THTE (p t td : ℝ) : ℝ :=
  let vapr := 6.112 * Real.exp (17.67 * td / (td + 243.5))
  let corr := 1.001 + ((p - 100) / 900) * 0.0034
  let e := corr * vapr
  let mixr := 0.62197 * (e / (p - e)) * 1000
  let TLCL := 800 * (td + 273.15 - 56) / (800 + (td + 273.15 - 56) *
    Real.log ((t + 273.15) / (td + 273.15))) + 56
  let E := 287 / 1004 * (1 - 0.28 * 0.001 * mixr)
  let thtm := (273.15 + t) * (1000 / p) ^ E
  let e2 := (3.376 / TLCL - 0.00254) * (mixr * (1 + 0.81 * 0.001 * mixr))
  thtm * Real.exp e2

/-- The closed-form composition of spec section 4.2, steps 1 to 8, written
from the spec's own words (for comparison with the source definition
`THTE`). -/
def THTE_specform (p t td : ℝ) : ℝ :=
  let vapr := 6.112 * Real.exp (17.67 * td / (td + 243.5))
  let e := (1.001 + ((p - 100) / 900) * 0.0034) * vapr
  let mixr := 0.62197 * e / (p - e) * 1000
  let TLCL := 800 * (td + 273.15 - 56) / (800 + (td + 273.15 - 56) *
    Real.log ((t + 273.15) / (td + 273.15))) + 56
  let E := 287 / 1004 * (1 - 0.00028 * mixr)
  (273.15 + t) * (1000 / p) ^ E * Real.exp ((3.376 / TLCL - 0.00254) * mixr *
    (1 + 0.00081 * mixr))

/-- The domain on which every floating-point operation inside `THTE` lands in
its finite range when evaluated in IEEE arithmetic: no division by zero, the
logarithm sees a positive argument, and the real power `(1000/p) ** E` sees a
positive base.  Outside this set the IEEE evaluation is non-finite (NaN or an
infinity). -/
def THTEdom (p t td : ℝ) : Prop :=
  let vapr := 6.112 * Real.exp (17.67 * td / (td + 243.5))
  let corr := 1.001 + ((p - 100) / 900) * 0.0034
  let e := corr * vapr
  let TLCLden := 800 + (td + 273.15 - 56) * Real.log ((t + 273.15) / (td + 273.15))
  let TLCL := 800 * (td + 273.15 - 56) / TLCLden + 56
  td + 243.5 ≠ 0 ∧ p - e ≠ 0 ∧ 0 < (t + 273.15) / (td + 273.15) ∧
    TLCLden ≠ 0 ∧ TLCL ≠ 0 ∧ 0 < 1000 / p

/-- `THTE` as the `WBT` loop observes it: `some` of the value on the finite
domain, `none` (the model of a non-finite IEEE result) elsewhere. -/
def THTEo (p t td : ℝ) : Option ℝ :=
  haveI := Classical.propDecidable (THTEdom p t td)
  if THTEdom p t td then some (THTE p t td) else none

/-- The convergence tolerance `epsi = .001` of `WBT` (Celsius). -/
def epsi : ℝ := 0.001

/-- The state of the `WBT` loop: the current guess `tgnu` (Celsius), the
convergence flag `convrg` and the iteration counter `iterN` — exactly the
variables the Python `while` loop mutates. -/
structure WState where
  tgnu : ℝ
  convrg : Bool
  iterN : ℕ

/-- One pass of the `WBT` `while` body.  `f` is the objective
`fun x => THTE(pres, x, x)`; `tenu` and `tenup` are its values at the guess
and one degree above.  When either value is `none` (non-finite) the Python
comparison `denom > 0` is false, so that case and `denom <= 0` both skip the
correction; otherwise the Newton correction `cor` is applied and the flag is
set when `|cor| < epsi`.  `iterN` advances in every case. -/
def wbtStep (tht : ℝ) (f : ℝ → Option ℝ) (s : WState) : WState :=
  let tgnup := s.tgnu + 1
  match f s.tgnu, f tgnup with
  | some tenu, some tenup =>
    if 0 < tenup - tenu then
      let cor := (tht - tenu) / (tenup - tenu)
      { tgnu := s.tgnu + cor
        convrg := if |cor| < epsi then true else s.convrg
        iterN := s.iterN + 1 }
    else
      { s with iterN := s.iterN + 1 }
  | _, _ => { s with iterN := s.iterN + 1 }

/-- The `while (iterN < 100) and (convrg != 1)` loop of `WBT`, with explicit
fuel; fuel 100 is enough because `iterN` grows by one on every pass. -/
def wbtLoop (tht : ℝ) (f : ℝ → Option ℝ) : ℕ → WState → WState
  | 0, s => s
  | fuel + 1, s =>
    if s.iterN < 100 ∧ s.convrg ≠ true then wbtLoop tht f fuel (wbtStep tht f s)
    else s

/-- The initial guess `tg` that `WBT` computes but never uses (the iteration
is seeded with `tgnu = tht - 273.15` instead); kept for fidelity to the
source. -/
def wbt_tg (pres tht : ℝ) : ℝ :=
  let val : ℝ := if 270 < tht then tht - 270 else 0
  (tht - 0.5 * val ^ (1.05 : ℝ)) * (pres / 1000) ^ (0.2 : ℝ)

/-- The state of the `WBT` loop when it finishes, started from the source's
seed `tgnu = tht - 273.15`, `convrg = 0`, `iterN = 0`. -/
def wbtFinal (pres tht : ℝ) : WState :=
  wbtLoop tht (fun x => THTEo pres x x) 100 ⟨tht - 273.15, false, 0⟩

/-- Source `WBT`: wet-bulb temperature (K) from pressure (hPa) and potential
temperature (K) by Newton iteration on `THTE`; `none` models the `np.nan`
non-convergence sentinel. -/
def WBT (pres tht : ℝ) : Option ℝ :=
  if (wbtFinal pres tht).convrg = true then some ((wbtFinal pres tht).tgnu + 273.15)
  else none

/-- The number of `(tenu, tenup)` THTE evaluation pairs performed by the
`WBT` loop: one pair per executed pass, mirroring `wbtLoop` exactly. -/
def wbtPairCount (tht : ℝ) (f : ℝ → Option ℝ) : ℕ → WState → ℕ
  | 0, _ => 0
  | fuel + 1, s =>
    if s.iterN < 100 ∧ s.convrg ≠ true then 1 + wbtPairCount tht f fuel (wbtStep tht f s)
    else 0

/-- The vapour pressure factor of `THTE`. -/
def vaprF (c : ℝ) : ℝ := 6.112 * Real.exp (17.67 * c / (c + 243.5))

/-- The pressure-corrected vapour pressure of `THTE` at `p = 1000`, where
`corr = 1.001 + ((1000-100)/900)*.0034 = 1.0044`. -/
def ecorr1000 (c : ℝ) : ℝ := 1.0044 * vaprF c

/-- The mixing ratio computed inside `THTE` at `p = 1000`. -/
def mixr1000 (c : ℝ) : ℝ := 0.62197 * (ecorr1000 c / (1000 - ecorr1000 c)) * 1000

/-- The factor `mixr * (1 + .81*.001*mixr)` of `THTE`'s moist exponent at
`p = 1000`. -/
def mterm (c : ℝ) : ℝ := mixr1000 c * (1 + 0.81 * 0.001 * mixr1000 c)

/-- Closed form of `THTE 1000 c c` (saturated parcel at 1000 hPa): the `log`
term vanishes because `t = td`, and `(1000/1000) ^ E = 1`. -/
def thteDiag (c : ℝ) : ℝ :=
  (273.15 + c) * Real.exp ((3.376 / (c + 273.15) - 0.00254) * mterm c)

/-- The concrete equivalent potential temperature `THTE(1000, -273, -273)`:
a finite value of the saturated-parcel objective, used to exhibit a
convergent but inaccurate `WBT` round trip. -/
def tht0 : ℝ := THTE 1000 (-273) (-273)

end

/-- C8: for every input `c`, `c_to_K c - 273.15 = c` — converting Celsius to
Kelvin and subtracting 273.15 back is an exact round trip in the
real-arithmetic model of the code. -/
theorem c_to_K_roundtrip (c : ℝ) : c_to_K c - 273.15 = c := by
  unfold c_to_K; ring

/-- C9: at the reference pressure `press = 1000` the Poisson factor
`(1000/1000) ^ (287/1004)` is 1, so `TempPress_to_PotTemp temp 1000` equals
`c_to_K temp` exactly; in particular `TempPress_to_PotTemp 20 1000 = 293.15`. -/
theorem potTemp_at_ref_pressure :
    (∀ temp : ℝ, TempPress_to_PotTemp temp 1000 = c_to_K temp) ∧
    TempPress_to_PotTemp 20 1000 = 293.15 := by
  have h : ∀ temp : ℝ, TempPress_to_PotTemp temp 1000 = c_to_K temp := by
    intro temp
    simp only [TempPress_to_PotTemp]
    rw [show (1000 : ℝ) / 1000 = 1 by norm_num, Real.one_rpow, mul_one]
  refine ⟨h, ?_⟩
  rw [h 20]
  unfold c_to_K
  norm_num

/-- C6 (counterexample): `svpwat 273.16` is not exactly `6.1078`: at the
triple point the nested polynomial reduces to its constant coefficient
`a0 = 0.999996876`, which is not 1. -/
theorem svpwat_triple_point_ne : svpwat 273.16 ≠ 6.1078 := by
  unfold svpwat
  norm_num

/-- C6 (amended): at the triple point the polynomial reduces to
`a0 = 0.999996876`, not to 1, so `svpwat 273.16` equals
`6.1078 / 0.999996876 ^ 8`, which is within `2e-4` of `6.1078` but not equal
to it. -/
theorem svpwat_triple_point_value :
    svpwat 273.16 = 6.1078 / 0.999996876 ^ (8 : ℕ) ∧
    |svpwat 273.16 - 6.1078| < 0.0002 := by
  have h : svpwat 273.16 = 6.1078 / 0.999996876 ^ (8 : ℕ) := by
    unfold svpwat
    norm_num
  refine ⟨h, ?_⟩
  rw [h, abs_lt]
  constructor <;> norm_num

/-- C5: the source `THTE` coincides with the closed-form composition of spec
section 4.2 steps 1 to 8 (`THTE_specform`) at every input. -/
theorem THTE_eq_specform (p t td : ℝ) : THTE p t td = THTE_specform p t td := by
  simp only [THTE, THTE_specform]
  set V := 6.112 * Real.exp (17.67 * td / (td + 243.5)) with hV
  have hm : (0.62197 : ℝ) * ((1.001 + (p - 100) / 900 * 0.0034) * V) /
      (p - (1.001 + (p - 100) / 900 * 0.0034) * V) * 1000 =
      0.62197 * ((1.001 + (p - 100) / 900 * 0.0034) * V /
      (p - (1.001 + (p - 100) / 900 * 0.0034) * V)) * 1000 := by
    ring
  rw [hm]
  set m := (0.62197 : ℝ) * ((1.001 + (p - 100) / 900 * 0.0034) * V /
      (p - (1.001 + (p - 100) / 900 * 0.0034) * V)) * 1000 with hmdef
  set L := Real.log ((t + 273.15) / (td + 273.15)) with hL
  set TL := 800 * (td + 273.15 - 56) / (800 + (td + 273.15 - 56) * L) + 56 with hTL
  have h1 : (287 / 1004 : ℝ) * (1 - 0.00028 * m) = 287 / 1004 * (1 - 0.28 * 0.001 * m) := by
    ring
  have h2 : (3.376 / TL - 0.00254) * m * (1 + 0.00081 * m) =
      (3.376 / TL - 0.00254) * (m * (1 + 0.81 * 0.001 * m)) := by
    ring
  rw [h1, h2]

/-- Bounds on the power `10 ^ (750/2473)` that `DwptPress_to_MixRatio`
raises at dew point 10 (the exponent `7.5*10/(237.3+10)` equals `750/2473`):
the 2473rd powers of the endpoints bracket `10 ^ 750`. -/
theorem ten_rpow_bound :
    (2.0103 : ℝ) < (10 : ℝ) ^ ((750 : ℝ) / 2473) ∧
    (10 : ℝ) ^ ((750 : ℝ) / 2473) < 2.0104 := by
  have hpow : ((10 : ℝ) ^ ((750 : ℝ) / 2473)) ^ (2473 : ℕ) = (10 : ℝ) ^ (750 : ℕ) := by
    rw [← Real.rpow_natCast ((10 : ℝ) ^ ((750 : ℝ) / 2473)) 2473,
      ← Real.rpow_mul (by norm_num : (0 : ℝ) ≤ 10)]
    rw [show (750 : ℝ) / 2473 * ((2473 : ℕ) : ℝ) = ((750 : ℕ) : ℝ) by push_cast; ring]
    exact Real.rpow_natCast 10 750
  constructor
  · apply lt_of_pow_lt_pow_left₀ 2473 (Real.rpow_nonneg (by norm_num) _)
    rw [hpow]
    norm_num
  · apply lt_of_pow_lt_pow_left₀ 2473 (by norm_num : (0 : ℝ) ≤ 2.0104)
    rw [hpow]
    norm_num

/-- The mixing ratio at dew point 10 C and pressure 1000 hPa lies strictly
between 7.734 and 7.736 g/kg. -/
theorem DPMR_ten_thousand_bounds :
    7.734 < DwptPress_to_MixRatio 10 1000 ∧ DwptPress_to_MixRatio 10 1000 < 7.736 := by
  obtain ⟨h1, h2⟩ := ten_rpow_bound
  simp only [DwptPress_to_MixRatio]
  rw [show (7.5 : ℝ) * 10 / (237.3 + 10) = 750 / 2473 by norm_num]
  set X := (10 : ℝ) ^ ((750 : ℝ) / 2473) with hX
  have hD : 0 < 1000 - 6.11 * X := by nlinarith
  have hsplit : (621.97 : ℝ) * (6.11 * X / (1000 - 6.11 * X)) =
      621.97 * (6.11 * X) / (1000 - 6.11 * X) := by ring
  constructor
  · rw [hsplit, lt_div_iff₀ hD]
    nlinarith
  · rw [hsplit, div_lt_iff₀ hD]
    nlinarith

/-- C7 (counterexample): at dew point 10 C and pressure 1000 hPa the code's
mixing ratio is about 7.735 g/kg, so it does not match 7.76 to two decimal
places. -/
theorem DwptPress_to_MixRatio_not_776 :
    ¬ abs ( DwptPress_to_MixRatio 10 1000 - 7.76) < 0.005 := by
  obtain ⟨h1, h2⟩ := DPMR_ten_thousand_bounds
  rw [abs_lt]
  intro h
  linarith [h.1]

/-- C7 (amended): `DwptPress_to_MixRatio 10 1000`, computed as
`w = 621.97*e/(press-e)` with `e = 6.11*10^(7.5*Tdew/(237.3+Tdew))`, yields
approximately 7.735 g/kg (within 1e-3, hence 7.73 when rounded to 2 decimal
places), matching the closed-form evaluation of the stated formula; the
spec's figure 7.76 is off by about 0.025. -/
theorem DwptPress_to_MixRatio_example :
    abs ( DwptPress_to_MixRatio 10 1000 - 7.735) < 0.001 := by
  obtain ⟨h1, h2⟩ := DPMR_ten_thousand_bounds
  rw [abs_lt]
  constructor <;> linarith

/-- Every pass of the `WBT` loop body advances the iteration counter by
exactly one, whichever branch is taken. -/
theorem wbtStep_iterN (tht : ℝ) (f : ℝ → Option ℝ) (s : WState) :
    (wbtStep tht f s).iterN = s.iterN + 1 := by
  simp only [wbtStep]
  rcases hu : f s.tgnu with _ | u
  · rfl
  · rcases hup : f (s.tgnu + 1) with _ | u2
    · rfl
    · dsimp only
      by_cases h : 0 < u2 - u
      · rw [if_pos h]
      · rw [if_neg h]

/-- C3: a pass of the `WBT` loop in which the finite-difference slope
`denom = tenup - tenu` is not positive — including the case where an operand
is the non-finite `none`, for which the IEEE comparison against NaN is false
— leaves the guess `tgnu` unchanged and does not set the convergence flag,
while the iteration counter still advances by one. -/
theorem wbtStep_skip_on_nonpos_denom (tht : ℝ) (f : ℝ → Option ℝ) (s : WState)
    (h : ∀ u u2, f s.tgnu = some u → f (s.tgnu + 1) = some u2 → u2 - u ≤ 0) :
    (wbtStep tht f s).tgnu = s.tgnu ∧ (wbtStep tht f s).convrg = s.convrg ∧
    (wbtStep tht f s).iterN = s.iterN + 1 := by
  have hstep : wbtStep tht f s = { s with iterN := s.iterN + 1 } := by
    simp only [wbtStep]
    rcases hu : f s.tgnu with _ | u
    · rfl
    · rcases hup : f (s.tgnu + 1) with _ | u2
      · rfl
      · dsimp only
        rw [if_neg (not_lt.mpr (h u u2 hu hup))]
  rw [hstep]
  exact ⟨rfl, rfl, rfl⟩

/-- Witness for C3 at a concrete pass: with the constant objective `some 5`
the slope `denom` is `0 ≤ 0`, and the pass maps the state `(0, clear, 0)` to
`(0, clear, 1)`: guess unchanged, flag not set, counter advanced. -/
theorem wbtStep_skip_witness :
    (wbtStep 0 (fun _ => some 5) ⟨0, false, 0⟩).tgnu = (0 : ℝ) ∧
    (wbtStep 0 (fun _ => some 5) ⟨0, false, 0⟩).convrg = false ∧
    (wbtStep 0 (fun _ => some 5) ⟨0, false, 0⟩).iterN = 1 :=
  wbtStep_skip_on_nonpos_denom 0 (fun _ => some 5) ⟨0, false, 0⟩ (by
    intro u u2 hu hup
    simp only [Option.some.injEq] at hu hup
    subst hu
    subst hup
    norm_num)

/-- Started at or below the cap, `iterN` never exceeds 100: the loop guard
`iterN < 100` stops the loop at the cap. -/
theorem wbtLoop_iterN_le (tht : ℝ) (f : ℝ → Option ℝ) :
    ∀ fuel : ℕ, ∀ s : WState, s.iterN ≤ 100 → (wbtLoop tht f fuel s).iterN ≤ 100 := by
  intro fuel
  induction fuel with
  | zero => intro s hs; exact hs
  | succ n ih =>
    intro s hs
    unfold wbtLoop
    by_cases hC : s.iterN < 100 ∧ s.convrg ≠ true
    · rw [if_pos hC]
      have hC1 := hC.1
      exact ih _ (by rw [wbtStep_iterN]; omega)
    · rw [if_neg hC]
      exact hs

/-- Evaluation accounting: the number of `(tenu, tenup)` evaluation pairs
performed plus the entry value of `iterN` equals the exit value of `iterN`,
i.e. each executed iteration evaluates `THTE` exactly twice. -/
theorem wbtPairCount_eq (tht : ℝ) (f : ℝ → Option ℝ) :
    ∀ fuel s, wbtPairCount tht f fuel s + s.iterN = (wbtLoop tht f fuel s).iterN := by
  intro fuel
  induction fuel with
  | zero =>
    intro s
    show 0 + s.iterN = s.iterN
    omega
  | succ n ih =>
    intro s
    unfold wbtPairCount wbtLoop
    by_cases hC : s.iterN < 100 ∧ s.convrg ≠ true
    · rw [if_pos hC, if_pos hC]
      have h1 := ih (wbtStep tht f s)
      rw [wbtStep_iterN] at h1
      omega
    · rw [if_neg hC, if_neg hC]
      omega

/-- C2: for every input pair `(pres, tht)` the `WBT` loop terminates with at
most 100 iterations executed; each executed iteration evaluates `THTE`
exactly twice (one `(tenu, tenup)` pair), so no call performs more than 100
THTE-pair evaluations. -/
theorem WBT_iteration_and_evaluation_bound (pres tht : ℝ) :
    (wbtFinal pres tht).iterN ≤ 100 ∧
    wbtPairCount tht (fun x => THTEo pres x x) 100 ⟨tht - 273.15, false, 0⟩ =
      (wbtFinal pres tht).iterN ∧
    wbtPairCount tht (fun x => THTEo pres x x) 100 ⟨tht - 273.15, false, 0⟩ ≤ 100 := by
  have h1 : (wbtFinal pres tht).iterN ≤ 100 := by
    simp only [wbtFinal]
    exact wbtLoop_iterN_le tht _ 100 ⟨tht - 273.15, false, 0⟩ (by norm_num)
  have h2 := wbtPairCount_eq tht (fun x => THTEo pres x x) 100 ⟨tht - 273.15, false, 0⟩
  rw [show (⟨tht - 273.15, false, 0⟩ : WState).iterN = 0 from rfl] at h2
  simp only [wbtFinal] at h1 ⊢
  omega

/-- C4: `WBT` is a total function of its two arguments (the model never
raises): it returns `some (tgnu + 273.15)` — Kelvin, from the final guess —
exactly when the loop ends with the convergence flag set, which happens
within the 100-iteration budget, and the `none` (NaN) sentinel otherwise;
never an intermediate or partially-iterated value. -/
theorem WBT_result_dichotomy (pres tht : ℝ) :
    (WBT pres tht = none ∧ (wbtFinal pres tht).convrg = false) ∨
    (WBT pres tht = some ((wbtFinal pres tht).tgnu + 273.15) ∧
      (wbtFinal pres tht).convrg = true ∧ (wbtFinal pres tht).iterN ≤ 100) := by
  have hiter : (wbtFinal pres tht).iterN ≤ 100 := by
    simp only [wbtFinal]
    exact wbtLoop_iterN_le tht _ 100 ⟨tht - 273.15, false, 0⟩ (by norm_num)
  cases hc : (wbtFinal pres tht).convrg with
  | false =>
    left
    refine ⟨?_, rfl⟩
    simp [WBT, hc]
  | true =>
    right
    refine ⟨?_, rfl, hiter⟩
    simp [WBT, hc]

/-- If the objective is `none` (non-finite) at the current guess and the
flag is clear, every remaining pass skips: the loop reaches the iteration
cap with the guess unchanged and the flag still clear. -/
theorem wbtLoop_stuck_on_none (tht : ℝ) (f : ℝ → Option ℝ) :
    ∀ fuel s, f s.tgnu = none → s.convrg = false → s.iterN + fuel = 100 →
      wbtLoop tht f fuel s = ⟨s.tgnu, false, 100⟩ := by
  intro fuel
  induction fuel with
  | zero =>
    intro s h0 hc hn
    obtain ⟨g, c, n⟩ := s
    have hc2 : c = false := hc
    have hn1 : n + 0 = 100 := hn
    have hn2 : n = 100 := by omega
    subst hc2
    subst hn2
    rfl
  | succ k ih =>
    intro s h0 hc hn
    unfold wbtLoop
    have hguard : s.iterN < 100 ∧ s.convrg ≠ true := by
      refine ⟨by omega, ?_⟩
      rw [hc]
      simp
    rw [if_pos hguard]
    have hstep : wbtStep tht f s = { s with iterN := s.iterN + 1 } := by
      simp only [wbtStep]
      rw [h0]
    rw [hstep]
    have h0x : f ({ s with iterN := s.iterN + 1 } : WState).tgnu = none := h0
    have hcx : ({ s with iterN := s.iterN + 1 } : WState).convrg = false := hc
    have hnx : ({ s with iterN := s.iterN + 1 } : WState).iterN + k = 100 := by
      show s.iterN + 1 + k = 100
      omega
    rw [ih _ h0x hcx hnx]

/-- C10: when `THTE(pres, x, x)` is non-finite at the seed `x = tht-273.15`,
the NaN comparison `denom > 0` is false in every iteration, so the guess is
never updated, the loop runs all 100 iterations, and `WBT` returns the NaN
non-convergence sentinel — it neither raises nor returns a non-finite
converged value. -/
theorem WBT_nan_seed (pres tht : ℝ)
    (h : THTEo pres (tht - 273.15) (tht - 273.15) = none) :
    WBT pres tht = none ∧ wbtFinal pres tht = ⟨tht - 273.15, false, 100⟩ := by
  have hfin : wbtFinal pres tht = ⟨tht - 273.15, false, 100⟩ := by
    unfold wbtFinal
    exact wbtLoop_stuck_on_none tht _ 100 ⟨tht - 273.15, false, 0⟩ h rfl (by norm_num)
  refine ⟨?_, hfin⟩
  simp [WBT, hfin]

/-- Witness for C10 at the concrete input `pres = -1000`, `tht = 300`: the
negative pressure makes the base `1000/pres` of the real power negative (an
IEEE NaN under a non-integer exponent), so the objective is `none` at the
seed and `WBT` returns the sentinel. -/
theorem WBT_nan_seed_witness :
    THTEo (-1000) ((300 : ℝ) - 273.15) ((300 : ℝ) - 273.15) = none ∧
    WBT (-1000) 300 = none := by
  have hnot : ¬ THTEdom (-1000) ((300 : ℝ) - 273.15) ((300 : ℝ) - 273.15) := by
    intro hdom
    have h6 := hdom.2.2.2.2.2
    norm_num at h6
  have h : THTEo (-1000) ((300 : ℝ) - 273.15) ((300 : ℝ) - 273.15) = none := by
    simp only [THTEo]
    rw [if_neg hnot]
  exact ⟨h, (WBT_nan_seed (-1000) 300 h).1⟩

/-- Numeric support: `exp x` is at least `1.3e9` once `x ≥ 21` (via
`exp 1 > 2.7182818283` and its 21st power). -/
theorem exp_ge_of_21 (x : ℝ) (hx : 21 ≤ x) : (1.3e9 : ℝ) ≤ Real.exp x := by
  have h1 : Real.exp 21 ≤ Real.exp x := Real.exp_le_exp.mpr hx
  have h3 : Real.exp 1 ^ (21 : ℕ) = Real.exp (21 : ℝ) := by
    rw [← Real.exp_nat_mul]
    norm_num
  have h4 : (2.7182818283 : ℝ) ^ (21 : ℕ) ≤ Real.exp 1 ^ (21 : ℕ) :=
    pow_le_pow_left₀ (by norm_num) Real.exp_one_gt_d9.le 21
  have h5 : (1.3e9 : ℝ) ≤ (2.7182818283 : ℝ) ^ (21 : ℕ) := by norm_num
  linarith [h3 ▸ h4]

/-- Numeric support: `exp x ≤ 1e-4` once `x ≤ -10` (via `exp 10 ≥ 22026`). -/
theorem exp_neg_small (x : ℝ) (hx : x ≤ -10) : Real.exp x ≤ 0.0001 := by
  have h1 : Real.exp x ≤ Real.exp (-10 : ℝ) := Real.exp_le_exp.mpr hx
  have h4 : Real.exp 1 ^ (10 : ℕ) = Real.exp (10 : ℝ) := by
    rw [← Real.exp_nat_mul]
    norm_num
  have h5 : (22026 : ℝ) ≤ Real.exp (10 : ℝ) := by
    rw [← h4]
    have h6 := pow_le_pow_left₀ (by norm_num : (0:ℝ) ≤ 2.7182818283) Real.exp_one_gt_d9.le 10
    nlinarith [h6]
  have h7 : Real.exp (-10 : ℝ) * Real.exp (10 : ℝ) = 1 := by
    rw [← Real.exp_add]
    norm_num
  have h8 : Real.exp (-10 : ℝ) * 22026 ≤ Real.exp (-10 : ℝ) * Real.exp (10 : ℝ) :=
    mul_le_mul_of_nonneg_left h5 (Real.exp_pos (-10 : ℝ)).le
  rw [h7] at h8
  linarith

/-- On the bracket `[-274, -271]` the exponent `17.67*c/(c+243.5)` inside the
vapour pressure is at least 21 (numerator and denominator are both negative). -/
theorem vapr_exponent_ge_21 (c : ℝ) (h1 : -274 ≤ c) (h2 : c ≤ -271) :
    21 ≤ 17.67 * c / (c + 243.5) := by
  have hden : c + 243.5 < 0 := by linarith
  rw [le_div_iff_of_neg hden]
  nlinarith

/-- On the bracket `[-274, -271]` the corrected vapour pressure at 1000 hPa
is astronomically large: at least `7.9e9`. -/
theorem ecorr1000_ge (c : ℝ) (h1 : -274 ≤ c) (h2 : c ≤ -271) :
    (7.9e9 : ℝ) ≤ ecorr1000 c := by
  have h3 := exp_ge_of_21 _ (vapr_exponent_ge_21 c h1 h2)
  simp only [ecorr1000, vaprF]
  nlinarith [h3]

/-- On the bracket `[-274, -271]` the mixing ratio inside `THTE` at 1000 hPa
is pinned just below `-621.97`: the enormous vapour pressure makes
`e/(1000-e)` lie in `(-1 - 1.3e-7, -1)`. -/
theorem mixr1000_bounds (c : ℝ) (h1 : -274 ≤ c) (h2 : c ≤ -271) :
    -621.9701 ≤ mixr1000 c ∧ mixr1000 c ≤ -621.97 := by
  have hE := ecorr1000_ge c h1 h2
  have hden : 1000 - ecorr1000 c < 0 := by linarith
  have hr1 : ecorr1000 c / (1000 - ecorr1000 c) ≤ -1 := by
    rw [div_le_iff_of_neg hden]
    linarith
  have hr2 : -1.00000013 ≤ ecorr1000 c / (1000 - ecorr1000 c) := by
    rw [le_div_iff_of_neg hden]
    linarith
  simp only [mixr1000]
  constructor <;> nlinarith [hr1, hr2]

/-- On the bracket `[-274, -271]` the factor `mixr*(1 + .81*.001*mixr)` of
`THTE`'s moist exponent lies in `[-308.63, -308.62]`. -/
theorem mterm_bounds (c : ℝ) (h1 : -274 ≤ c) (h2 : c ≤ -271) :
    -308.63 ≤ mterm c ∧ mterm c ≤ -308.62 := by
  obtain ⟨hm1, hm2⟩ := mixr1000_bounds c h1 h2
  have hp : 0 ≤ (mixr1000 c + 621.9701) * (-621.97 - mixr1000 c) :=
    mul_nonneg (by linarith) (by linarith)
  simp only [mterm]
  constructor <;> nlinarith [hm1, hm2, hp]

/-- On the diagonal `t = td` at `p = 1000` the source `THTE` collapses to
`thteDiag`: the logarithm vanishes and the Poisson factor is `1 ^ E = 1`. -/
theorem THTE_diag (c : ℝ) (hc : c + 273.15 ≠ 0) : THTE 1000 c c = thteDiag c := by
  simp only [THTE, thteDiag, mterm, mixr1000, ecorr1000, vaprF]
  rw [div_self hc, Real.log_one, mul_zero, add_zero]
  rw [show (1000 : ℝ) / 1000 = 1 from by norm_num, Real.one_rpow, mul_one]
  rw [mul_div_cancel_left₀ _ (show (800 : ℝ) ≠ 0 from by norm_num)]
  norm_num

/-- On the bracket `[-274, -271]` (excluding the removable point
`c = -273.15`) the saturated-parcel objective is inside `THTE`'s finite
domain at 1000 hPa. -/
theorem THTEdom_diag_1000 (c : ℝ) (h1 : -274 ≤ c) (h2 : c ≤ -271)
    (hc : c + 273.15 ≠ 0) : THTEdom 1000 c c := by
  have hE := ecorr1000_ge c h1 h2
  have hee : (1.001 + ((1000 : ℝ) - 100) / 900 * 0.0034) *
      (6.112 * Real.exp (17.67 * c / (c + 243.5))) = ecorr1000 c := by
    simp only [ecorr1000, vaprF]
    norm_num
  simp only [THTEdom]
  rw [div_self hc, Real.log_one, mul_zero, add_zero, hee]
  refine ⟨by intro h; linarith, by intro h; linarith, by norm_num, by norm_num, ?_,
    by norm_num⟩
  rw [mul_div_cancel_left₀ _ (show (800 : ℝ) ≠ 0 from by norm_num)]
  intro h
  exact hc (by linarith)

/-- On the same bracket the loop's objective `THTEo 1000 c c` is finite and
equal to `some (thteDiag c)`. -/
theorem THTEo_diag_some (c : ℝ) (h1 : -274 ≤ c) (h2 : c ≤ -271)
    (hc : c + 273.15 ≠ 0) : THTEo 1000 c c = some (thteDiag c) := by
  have hd := THTEdom_diag_1000 c h1 h2 hc
  simp only [THTEo]
  rw [if_pos hd, THTE_diag c hc]

/-- The concrete objective value `tht0 = THTE(1000,-273,-273)` in closed
diagonal form. -/
theorem tht0_eq :
    tht0 = 0.15 * Real.exp ((3.376 / 0.15 - 0.00254) * mterm (-273)) := by
  have h := THTE_diag (-273) (by norm_num)
  simp only [tht0]
  rw [h]
  simp only [thteDiag]
  norm_num

/-- `tht0` is positive but at most `0.15 * exp (-6944)`: the moist exponent
at `c = -273` is below `-6944`. -/
theorem tht0_bounds : 0 < tht0 ∧ tht0 ≤ 0.15 * Real.exp (-6944 : ℝ) := by
  obtain ⟨hm1, hm2⟩ := mterm_bounds (-273) (by norm_num) (by norm_num)
  rw [tht0_eq]
  refine ⟨by positivity, ?_⟩
  have hAm : (3.376 / 0.15 - 0.00254) * mterm (-273) ≤ -6944 := by nlinarith [hm1, hm2]
  have h1 := Real.exp_le_exp.mpr hAm
  linarith

/-- One unfolding of the `WBT` loop. -/
theorem wbtLoop_succ (tht : ℝ) (f : ℝ → Option ℝ) (fuel : ℕ) (s : WState) :
    wbtLoop tht f (fuel + 1) s =
      if s.iterN < 100 ∧ s.convrg ≠ true then wbtLoop tht f fuel (wbtStep tht f s)
      else s := rfl

/-- Once the convergence flag is set the loop exits immediately. -/
theorem wbtLoop_converged (tht : ℝ) (f : ℝ → Option ℝ) (fuel : ℕ) (s : WState)
    (h : s.convrg = true) : wbtLoop tht f fuel s = s := by
  cases fuel with
  | zero => rfl
  | succ k => rw [wbtLoop_succ, if_neg (fun hC => hC.2 h)]

/-- If the loop starts with the flag clear and ends with it set, then some
pass set it: that pass saw finite values `u` at its guess `g` and `u2` at
`g + 1` with positive slope, applied the correction `(tht-u)/(u2-u)` of
magnitude below `epsi`, and the loop exits with guess `g + (tht-u)/(u2-u)`. -/
theorem wbtLoop_converged_structure (tht : ℝ) (f : ℝ → Option ℝ) :
    ∀ fuel s, s.convrg = false → (wbtLoop tht f fuel s).convrg = true →
      ∃ g u u2, f g = some u ∧ f (g + 1) = some u2 ∧ 0 < u2 - u ∧
        |(tht - u) / (u2 - u)| < epsi ∧
        (wbtLoop tht f fuel s).tgnu = g + (tht - u) / (u2 - u) := by
  intro fuel
  induction fuel with
  | zero =>
    intro s h0 h1
    have h2 : s.convrg = true := h1
    rw [h0] at h2
    cases h2
  | succ k ih =>
    intro s h0 h1
    by_cases hC : s.iterN < 100 ∧ s.convrg ≠ true
    · rw [wbtLoop_succ, if_pos hC] at h1 ⊢
      rcases hu : f s.tgnu with _ | u
      · have hstep : wbtStep tht f s = { s with iterN := s.iterN + 1 } := by
          simp only [wbtStep]
          rw [hu]
        rw [hstep] at h1 ⊢
        exact ih _ (show ({ s with iterN := s.iterN + 1 } : WState).convrg = false from h0) h1
      · rcases hup : f (s.tgnu + 1) with _ | u2
        · have hstep : wbtStep tht f s = { s with iterN := s.iterN + 1 } := by
            simp only [wbtStep]
            rw [hu, hup]
          rw [hstep] at h1 ⊢
          exact ih _ (show ({ s with iterN := s.iterN + 1 } : WState).convrg = false from h0) h1
        · by_cases hd : 0 < u2 - u
          · by_cases hcor : |(tht - u) / (u2 - u)| < epsi
            · have hstep : wbtStep tht f s =
                  ⟨s.tgnu + (tht - u) / (u2 - u), true, s.iterN + 1⟩ := by
                simp only [wbtStep]
                rw [hu, hup]
                dsimp only
                rw [if_pos hd, if_pos hcor]
              rw [hstep] at h1 ⊢
              rw [wbtLoop_converged tht f k _ rfl]
              exact ⟨s.tgnu, u, u2, hu, hup, hd, hcor, rfl⟩
            · have hstep : wbtStep tht f s =
                  ⟨s.tgnu + (tht - u) / (u2 - u), s.convrg, s.iterN + 1⟩ := by
                simp only [wbtStep]
                rw [hu, hup]
                dsimp only
                rw [if_pos hd, if_neg hcor]
              rw [hstep] at h1 ⊢
              exact ih _ (show (⟨s.tgnu + (tht - u) / (u2 - u), s.convrg,
                s.iterN + 1⟩ : WState).convrg = false from h0) h1
          · have hstep : wbtStep tht f s = { s with iterN := s.iterN + 1 } := by
              simp only [wbtStep]
              rw [hu, hup]
              dsimp only
              rw [if_neg hd]
            rw [hstep] at h1 ⊢
            exact ih _ (show ({ s with iterN := s.iterN + 1 } : WState).convrg = false
              from h0) h1
    · rw [wbtLoop_succ, if_neg hC] at h1
      rw [h0] at h1
      cases h1

/-- Auxiliary: a nonnegative times a nonpositive is nonpositive. -/
theorem mul_np_aux (a b : ℝ) (ha : 0 ≤ a) (hb : b ≤ 0) : a * b ≤ 0 := by nlinarith

/-- Auxiliary interval product bound used for the moist exponent one degree
above the seed: `A ∈ [3.37, 3.374]` and `m ∈ [-308.63, -308.62]` put `A*m`
in `[-1042, -1040]`. -/
theorem interval_mul_bound (A m : ℝ) (h1 : 3.37 ≤ A) (h2 : A ≤ 3.374)
    (h3 : -308.63 ≤ m) (h4 : m ≤ -308.62) :
    (-1042 : ℝ) ≤ A * m ∧ A * m ≤ -1040 := by
  constructor
  · nlinarith [mul_nonneg (by linarith : (0 : ℝ) ≤ 3.374 - A)
      (by linarith : (0 : ℝ) ≤ m + 308.63)]
  · nlinarith [mul_nonneg (by linarith : (0 : ℝ) ≤ A - 3.37)
      (by linarith : (0 : ℝ) ≤ -m - 308.62)]

set_option maxHeartbeats 2000000 in
/-- For any positive target `T` at most `0.15 * exp(-6944)` (such as
`tht0 = THTE(1000,-273,-273)`), the `WBT` Newton loop at 1000 hPa converges
on its very first pass — the objective is astronomically flat near the seed,
so the first correction is already below `epsi` — and the returned Kelvin
value is below `0.002`. -/
theorem wbt_converges_small (T : ℝ) (ht0 : 0 < T)
    (ht1 : T ≤ 0.15 * Real.exp (-6944 : ℝ)) :
    ∃ w, WBT 1000 T = some w ∧ 0 < w ∧ w < 0.002 := by
  have hexp4 : Real.exp (-6944 : ℝ) ≤ 0.0001 := exp_neg_small _ (by norm_num)
  have htht_small : T ≤ 0.000015 := by linarith
  set g0 := T - 273.15 with hg0
  have hg0r1 : -274 ≤ g0 := by rw [hg0]; linarith
  have hg0r2 : g0 ≤ -271 := by rw [hg0]; linarith
  have hg1r1 : -274 ≤ g0 + 1 := by rw [hg0]; linarith
  have hg1r2 : g0 + 1 ≤ -271 := by rw [hg0]; linarith
  have hgc : g0 + 273.15 ≠ 0 := by
    rw [hg0]
    intro h
    linarith
  have hg1c : g0 + 1 + 273.15 ≠ 0 := by
    rw [hg0]
    intro h
    linarith
  have hfu : THTEo 1000 g0 g0 = some (thteDiag g0) := THTEo_diag_some g0 hg0r1 hg0r2 hgc
  have hfu1 : THTEo 1000 (g0 + 1) (g0 + 1) = some (thteDiag (g0 + 1)) :=
    THTEo_diag_some _ hg1r1 hg1r2 hg1c
  obtain ⟨hm0a, hm0b⟩ := mterm_bounds g0 hg0r1 hg0r2
  obtain ⟨hm1a, hm1b⟩ := mterm_bounds (g0 + 1) hg1r1 hg1r2
  have htenu_eq : thteDiag g0 =
      T * Real.exp ((3.376 / T - 0.00254) * mterm g0) := by
    simp only [thteDiag]
    rw [show (273.15 + g0 : ℝ) = T from by rw [hg0]; ring,
      show (g0 + 273.15 : ℝ) = T from by rw [hg0]; ring]
  have hA0 : 0 ≤ 3.376 / T - 0.00254 := by
    have h1 : (3.376 : ℝ) ≤ 3.376 / T := by
      rw [le_div_iff₀ ht0]
      nlinarith [htht_small]
    linarith
  have htenu_pos : 0 < thteDiag g0 := by
    rw [htenu_eq]
    positivity
  have htenu_le : thteDiag g0 ≤ T := by
    rw [htenu_eq]
    have hneg : (3.376 / T - 0.00254) * mterm g0 ≤ 0 :=
      mul_np_aux _ _ hA0 (by linarith)
    have hexple : Real.exp ((3.376 / T - 0.00254) * mterm g0) ≤ 1 :=
      Real.exp_le_one_iff.mpr hneg
    exact mul_le_of_le_one_right ht0.le hexple
  have htenup_eq : thteDiag (g0 + 1) =
      (1 + T) * Real.exp ((3.376 / (1 + T) - 0.00254) * mterm (g0 + 1)) := by
    simp only [thteDiag]
    rw [show (273.15 + (g0 + 1) : ℝ) = 1 + T from by rw [hg0]; ring,
      show (g0 + 1 + 273.15 : ℝ) = 1 + T from by rw [hg0]; ring]
  have h1t : (1 : ℝ) ≤ 1 + T := by linarith
  have h1t2 : 1 + T ≤ 1.0001 := by linarith
  have hA1lo : (3.37 : ℝ) ≤ 3.376 / (1 + T) - 0.00254 := by
    have h1 : (3.3756 : ℝ) ≤ 3.376 / (1 + T) := by
      rw [le_div_iff₀ (by linarith : (0 : ℝ) < 1 + T)]
      nlinarith
    linarith
  have hA1hi : 3.376 / (1 + T) - 0.00254 ≤ 3.374 := by
    have h1 : 3.376 / (1 + T) ≤ 3.376 := by
      rw [div_le_iff₀ (by linarith : (0 : ℝ) < 1 + T)]
      nlinarith
    linarith
  obtain ⟨hAm1lo, hAm1hi⟩ :=
    interval_mul_bound (3.376 / (1 + T) - 0.00254) (mterm (g0 + 1)) hA1lo hA1hi hm1a hm1b
  have htenup_lo : Real.exp (-1042 : ℝ) ≤ thteDiag (g0 + 1) := by
    rw [htenup_eq]
    have h1 : Real.exp (-1042 : ℝ) ≤
        Real.exp ((3.376 / (1 + T) - 0.00254) * mterm (g0 + 1)) :=
      Real.exp_le_exp.mpr hAm1lo
    exact le_trans h1 (le_mul_of_one_le_left (Real.exp_pos _).le h1t)
  have hsplit : Real.exp (-6944 : ℝ) = Real.exp (-1042 : ℝ) * Real.exp (-5902 : ℝ) := by
    rw [← Real.exp_add]
    norm_num
  have hsm : Real.exp (-5902 : ℝ) ≤ 0.0001 := exp_neg_small _ (by norm_num)
  have htht_tiny : T ≤ 0.000015 * Real.exp (-1042 : ℝ) := by
    have h2 : (0.15 : ℝ) * Real.exp (-6944 : ℝ) ≤ 0.000015 * Real.exp (-1042 : ℝ) := by
      rw [hsplit]
      have h3 : Real.exp (-1042 : ℝ) * Real.exp (-5902 : ℝ) ≤
          Real.exp (-1042 : ℝ) * 0.0001 :=
        mul_le_mul_of_nonneg_left hsm (Real.exp_pos (-1042 : ℝ)).le
      linarith
    linarith
  have hdenom_pos : 0 < thteDiag (g0 + 1) - thteDiag g0 := by
    have h2 : thteDiag g0 ≤ 0.000015 * Real.exp (-1042 : ℝ) := le_trans htenu_le htht_tiny
    linarith [Real.exp_pos (-1042 : ℝ), htenup_lo]
  have hcor_nonneg : 0 ≤ (T - thteDiag g0) / (thteDiag (g0 + 1) - thteDiag g0) :=
    div_nonneg (by linarith) hdenom_pos.le
  have hcor_lt : (T - thteDiag g0) / (thteDiag (g0 + 1) - thteDiag g0) < 0.001 := by
    rw [div_lt_iff₀ hdenom_pos]
    have h2 : thteDiag g0 ≤ 0.000015 * Real.exp (-1042 : ℝ) := le_trans htenu_le htht_tiny
    linarith [Real.exp_pos (-1042 : ℝ), htenup_lo, htenu_pos]
  set cor := (T - thteDiag g0) / (thteDiag (g0 + 1) - thteDiag g0) with hcor
  have habs : |cor| < epsi := by
    rw [abs_of_nonneg hcor_nonneg]
    simp only [epsi]
    exact hcor_lt
  have hstep : wbtStep T (fun x => THTEo 1000 x x) ⟨g0, false, 0⟩ =
      ⟨g0 + cor, true, 1⟩ := by
    simp only [wbtStep]
    rw [hfu, hfu1]
    dsimp only
    rw [if_pos hdenom_pos, ← hcor]
    rw [if_pos habs]
  have hguard : ((⟨g0, false, 0⟩ : WState).iterN < 100 ∧
      (⟨g0, false, 0⟩ : WState).convrg ≠ true) := by
    refine ⟨?_, ?_⟩
    · show (0 : ℕ) < 100
      norm_num
    · show (false : Bool) ≠ true
      simp
  have hfinal : wbtFinal 1000 T = ⟨g0 + cor, true, 1⟩ := by
    simp only [wbtFinal]
    rw [← hg0]
    rw [show (100 : ℕ) = 99 + 1 from rfl, wbtLoop_succ, if_pos hguard, hstep,
      wbtLoop_converged T _ 99 _ rfl]
  have hwbt : WBT 1000 T = some (g0 + cor + 273.15) := by
    simp only [WBT, hfinal]
    exact if_pos trivial
  have hval : g0 + cor + 273.15 = T + cor := by
    rw [hg0]
    ring
  refine ⟨g0 + cor + 273.15, hwbt, ?_, ?_⟩
  · rw [hval]
    linarith
  · rw [hval]
    linarith

/-- The round trip at seed `T0 = -273`, `pres = 1000`: `WBT` converges but to
a value below `0.002` K. -/
theorem wbt_tht0_spec : ∃ w, WBT 1000 tht0 = some w ∧ 0 < w ∧ w < 0.002 :=
  wbt_converges_small tht0 tht0_bounds.1 tht0_bounds.2

/-- C1 (counterexample): at `pres = 1000`, seed `T0 = -273`, the value
`tht = THTE(1000,-273,-273)` is finite (inside `THTEdom`), yet `WBT`
converges — on its very first iteration, because the objective is so flat
there that the first correction is already below `epsi` — to a value below
`0.002` K, which differs from `T0 + 273.15 = 0.15` by far more than `1e-3`. -/
theorem WBT_THTE_roundtrip_cex :
    THTEdom 1000 (-273) (-273) ∧
    ∃ w, WBT 1000 (THTE 1000 (-273) (-273)) = some w ∧
      ¬ |w - ((-273 : ℝ) + 273.15)| < 0.001 := by
  refine ⟨THTEdom_diag_1000 (-273) (by norm_num) (by norm_num) (by norm_num), ?_⟩
  obtain ⟨w, hw, hw0, hw2⟩ := wbt_tht0_spec
  refine ⟨w, hw, ?_⟩
  intro h
  rw [abs_lt] at h
  linarith [h.1]

/-- C1 (amended): when `tht = THTE(pres, T0, T0)` is finite, `WBT(pres,
tht)` need not return a value within `1e-3` of `T0 + 273.15`; what the
convergence criterion does guarantee is about the step, not the error:
whenever `WBT` returns a converged result, the pass that set the flag saw
finite objective values `u` at its guess `g` and `u2` at `g + 1` with
positive slope `u2 - u`, its Newton correction `(tht-u)/(u2-u)` had
magnitude below `epsi = 1e-3`, and the result is exactly
`g + (tht-u)/(u2-u) + 273.15`. -/
theorem WBT_converged_last_correction (pres tht : ℝ)
    (h : ∃ w, WBT pres tht = some w) :
    ∃ g u u2, THTEo pres g g = some u ∧ THTEo pres (g + 1) (g + 1) = some u2 ∧
      0 < u2 - u ∧ |(tht - u) / (u2 - u)| < epsi ∧
      WBT pres tht = some (g + (tht - u) / (u2 - u) + 273.15) := by
  obtain ⟨w, hw⟩ := h
  have hconv : (wbtFinal pres tht).convrg = true := by
    by_contra hc
    simp [WBT, hc] at hw
  obtain ⟨g, u, u2, hg1, hg2, hg3, hg4, hg5⟩ :=
    wbtLoop_converged_structure tht (fun x => THTEo pres x x) 100
      ⟨tht - 273.15, false, 0⟩ rfl hconv
  refine ⟨g, u, u2, hg1, hg2, hg3, hg4, ?_⟩
  have h1 : WBT pres tht = some ((wbtFinal pres tht).tgnu + 273.15) := by
    simp only [WBT]
    rw [if_pos hconv]
  have h2 : (wbtFinal pres tht).tgnu = g + (tht - u) / (u2 - u) := hg5
  rw [h1, h2]

/-- Witness for the amended C1, applying the theorem at the concrete input
`pres = 1000`, `tht = tht0 = THTE(1000,-273,-273)`, where `WBT` does
converge. -/
theorem WBT_converged_last_correction_witness :
    (∃ w, WBT 1000 tht0 = some w) ∧
    ∃ g u u2, THTEo 1000 g g = some u ∧ THTEo 1000 (g + 1) (g + 1) = some u2 ∧
      0 < u2 - u ∧ |(tht0 - u) / (u2 - u)| < epsi ∧
      WBT 1000 tht0 = some (g + (tht0 - u) / (u2 - u) + 273.15) := by
  have h : ∃ w, WBT 1000 tht0 = some w := by
    obtain ⟨w, hw, _, _⟩ := wbt_tht0_spec
    exact ⟨w, hw⟩
  exact ⟨h, WBT_converged_last_correction 1000 tht0 h⟩
